import Mathlib

/-!
Shallow embedding of the employees CRUD service:
`src/employees_manager.py` (data-access layer) and
`src/api/routes/employees.py` (request layer).

The relational store is a list of rows plus the primary-key sequence; each
data-access operation is the body it runs inside `_session_scope`, wrapped by
an explicit model of that context manager (commit on success, rollback and
re-raise on exception, close on every exit path).  The request layer is a
function from the store and the validated request parameters to an HTTP-level
outcome and the store after the request.
-/

/-- ORM model mirroring the `employees` DB table (class `Employee` in
`employees_manager.py`).  `salary` is a `Numeric(12,2)` decimal column,
modelled as `ℚ`; `id` and `years_of_experience` are SQL integers, modelled as
`Int`; the nullable `job_history` column is an `Option String`. -/
structure Employee where
  id : Int
  name : String
  title : String
  job_history : Option String
  salary : ℚ
  years_of_experience : Int
deriving DecidableEq, Repr

/-- The persistent store: the rows of the `employees` table together with the
value the primary-key sequence will assign next (`id` is an `Integer`
`primary_key` column, so the database assigns sequential ids at insert). -/
structure DB where
  rows : List Employee
  nextId : Int
deriving DecidableEq, Repr

/-- A Python runtime value that can appear in a `filters` or `updates` dict at
the data-access layer: a string, a decimal number, an integer, or `None`. -/
inductive Value where
  | vStr (s : String)
  | vNum (q : ℚ)
  | vInt (n : Int)
  | vNull
deriving DecidableEq, Repr

/-- The mapped columns of the `Employee` ORM class. -/
inductive Col where
  | id
  | name
  | title
  | job_history
  | salary
  | years_of_experience
deriving DecidableEq, Repr

/-- Model of `getattr(Employee, s)` for the mapped columns: `some` when `s` names a
column, `none` when the lookup raises `AttributeError`. -/
def colOf (s : String) : Option Col :=
  if s = "id" then some .id
  else if s = "name" then some .name
  else if s = "title" then some .title
  else if s = "job_history" then some .job_history
  else if s = "salary" then some .salary
  else if s = "years_of_experience" then some .years_of_experience
  else none

/-- The value a row holds in a given column (a `NULL` `job_history` is
`vNull`). -/
def colVal : Col → Employee → Value
  | .id, e => .vInt e.id
  | .name, e => .vStr e.name
  | .title, e => .vStr e.title
  | .job_history, e =>
    match e.job_history with
    | some s => .vStr s
    | none => .vNull
  | .salary, e => .vNum e.salary
  | .years_of_experience, e => .vInt e.years_of_experience

/-- The exceptions the data-access layer can raise: `ValueError` (a missing
id), `AttributeError` (from `getattr` on an unknown attribute name), and
SQLAlchemy's `MultipleResultsFound` (from `.one()`; unreachable while ids are
unique). -/
inductive Err where
  | valueError (msg : String)
  | attributeError (missing : String)
  | multipleResultsFound
deriving DecidableEq, Repr

deriving instance DecidableEq for Except

/-- Outcome of running one operation inside `_session_scope`: the store after
the scope exits, the operation's result or the propagated exception, and
whether `session.close()` ran. -/
structure ScopeOutcome (α : Type) where
  store : DB
  result : Except Err α
  closed : Bool
deriving DecidableEq, Repr

/-- Model of `_session_scope` from `employees_manager.py`: run the body, commit its
state on success, roll the store back and re-raise on any exception, and close
the session on every exit path. -/
def session_scope {α : Type} (body : DB → Except Err (DB × α)) (db : DB) :
    ScopeOutcome α :=
  match body db with
  | .ok (db2, a) => ⟨db2, .ok a, true⟩
  | .error e => ⟨db, .error e, true⟩

/-- Ordering key of the nullable `job_history` column.  In ascending order
PostgreSQL sorts `NULL` after every string (`NULLS LAST`), which is exactly
`⊤` in `WithTop String`; `col.desc()` reverses the whole comparison, giving
`NULLS FIRST` descending. -/
def jobKey (e : Employee) : WithTop String :=
  match e.job_history with
  | none => ⊤
  | some s => (s : WithTop String)

/-- Three-way comparison of two rows through an ordering key. -/
def keyCmp {κ : Type} [LinearOrder κ] (f : Employee → κ) (a b : Employee) : Ordering :=
  cmp (f a) (f b)

/-- Three-way comparison of two rows in one column, in the column's ascending
SQL order. -/
def colCmp : Col → Employee → Employee → Ordering
  | .id => keyCmp Employee.id
  | .name => keyCmp Employee.name
  | .title => keyCmp Employee.title
  | .job_history => keyCmp jobKey
  | .salary => keyCmp Employee.salary
  | .years_of_experience => keyCmp Employee.years_of_experience

/-- One `ORDER BY` clause: a column and whether the direction is descending
(`col.desc()` versus `col.asc()`). -/
abbrev Clause : Type := Col × Bool

/-- Comparison of two rows under one clause. -/
def clauseCmp (c : Clause) (a b : Employee) : Ordering :=
  if c.2 then (colCmp c.1 a b).swap else colCmp c.1 a b

/-- Lexicographic comparison along the full `ORDER BY` list. -/
def clausesCmp : List Clause → Employee → Employee → Ordering
  | [], _, _ => .eq
  | c :: cs, a, b =>
    match clauseCmp c a b with
    | .eq => clausesCmp cs a b
    | o => o

/-- Row `a` may come no later than row `b` in the ordered result. -/
def clausesLE (cs : List Clause) (a b : Employee) : Bool :=
  match clausesCmp cs a b with
  | .gt => false
  | _ => true

/-- Parse one `order_by` key: a leading `-` selects descending order and the
remainder names the column (`key.startswith("-")` / `key[1:]`, phrased on the
character list). -/
def parseKey (key : String) : Bool × String :=
  match key.data with
  | '-' :: rest => (true, String.mk rest)
  | _ => (false, key)

/-- Build the `ORDER BY` clauses, raising `AttributeError` at the first
unknown column name exactly as `getattr(Employee, col_name)` does. -/
def parseClauses : List String → Except Err (List Clause)
  | [] => .ok []
  | key :: rest =>
    let p := parseKey key
    match colOf p.2 with
    | none => .error (.attributeError p.2)
    | some c => do
      let cs ← parseClauses rest
      .ok ((c, p.1) :: cs)

/-- Resolve the exact-match `filters` dict to columns, raising
`AttributeError` on an unknown attribute name as `getattr(Employee, attr)`
does. -/
def parseFilters : List (String × Value) → Except Err (List (Col × Value))
  | [] => .ok []
  | (k, v) :: rest =>
    match colOf k with
    | none => .error (.attributeError k)
    | some c => do
      let fs ← parseFilters rest
      .ok ((c, v) :: fs)

/-- A row satisfies the conjunction of the exact-match filters. -/
def matchesFilters (fs : List (Col × Value)) (e : Employee) : Bool :=
  fs.all (fun cv => colVal cv.1 e == cv.2)

/-- Python truthiness default `order_by = order_by or ["-salary"]`: `None` and the
empty list are both replaced by the default. -/
def default_order_by : Option (List String) → List String
  | none => ["-salary"]
  | some [] => ["-salary"]
  | some l => l

namespace EmployeesManager

/-- Body of `get_top_employees` inside the session scope: resolve the filters,
build the `ORDER BY` clauses (both can raise `AttributeError`), then return
the first `n` rows of the filtered, ordered table.  `order_by or ["-salary"]`
and `filters or {}` replace a missing or empty argument by the default
(Python truthiness).  The claims only exercise `n > 0`; `n.toNat` truncates
the nonpositive limits no claim reaches. -/
def get_top_body (n : Int) (order_by : Option (List String))
    (filters : List (String × Value)) (db : DB) :
    Except Err (DB × List Employee) := do
  let ob := default_order_by order_by
  let fs ← parseFilters filters
  let cs ← parseClauses ob
  let sorted := (db.rows.filter (matchesFilters fs)).mergeSort (clausesLE cs)
  .ok (db, sorted.take n.toNat)

/-- Method `EmployeesManager.get_top_employees`. -/
def get_top_employees (db : DB) (n : Int) (order_by : Option (List String))
    (filters : List (String × Value)) : ScopeOutcome (List Employee) :=
  session_scope (get_top_body n order_by filters) db

/-- Body of `create_employee`: insert one row; `session.flush()` makes the
database assign the next sequence value as the new row's id. -/
def create_body (name title : String) (job_history : Option String)
    (salary : ℚ) (years_of_experience : Int) (db : DB) :
    Except Err (DB × Employee) :=
  let emp : Employee :=
    ⟨db.nextId, name, title, job_history, salary, years_of_experience⟩
  .ok (⟨db.rows ++ [emp], db.nextId + 1⟩, emp)

/-- Method `EmployeesManager.create_employee`. -/
def create_employee (db : DB) (name title : String) (job_history : Option String)
    (salary : ℚ) (years_of_experience : Int) : ScopeOutcome Employee :=
  session_scope (create_body name title job_history salary years_of_experience) db

/-- Model of `if hasattr(emp, attr): setattr(emp, attr, value)` restricted to the
mapped columns: a key that is not a column changes no stored field, and the
claims only exercise values of the type the named column holds, so a
type-mismatched value is outside the model and treated as a no-op. -/
def setField (e : Employee) (kv : String × Value) : Employee :=
  match kv with
  | ("id", .vInt n) => { e with id := n }
  | ("name", .vStr s) => { e with name := s }
  | ("title", .vStr s) => { e with title := s }
  | ("job_history", .vStr s) => { e with job_history := some s }
  | ("job_history", .vNull) => { e with job_history := none }
  | ("salary", .vNum q) => { e with salary := q }
  | ("years_of_experience", .vInt n) => { e with years_of_experience := n }
  | _ => e

/-- Body of `update_employee`: `.one()` on the id filter (zero matches raises
`NoResultFound`, caught and replaced by `ValueError`; several matches raise
`MultipleResultsFound`, uncaught), then `setattr` each update in dict order
and persist the mutated row in place. -/
def update_body (emp_id : Int) (updates : List (String × Value)) (db : DB) :
    Except Err (DB × Employee) :=
  match db.rows.filter (fun e => e.id == emp_id) with
  | [] =>
    .error (.valueError ("Employee with id " ++ toString emp_id ++ " does not exist"))
  | [e] =>
    let e2 := updates.foldl setField e
    .ok (⟨db.rows.map (fun r => if r.id == emp_id then e2 else r), db.nextId⟩, e2)
  | _ => .error .multipleResultsFound

/-- Method `EmployeesManager.update_employee`. -/
def update_employee (db : DB) (emp_id : Int) (updates : List (String × Value)) :
    ScopeOutcome Employee :=
  session_scope (update_body emp_id updates) db

/-- Body of `delete_employee`: bulk-delete the rows matching the id; when the
deleted count is zero, raise `ValueError` (the in-session deletion is then
rolled back by the scope). -/
def delete_body (emp_id : Int) (db : DB) : Except Err (DB × Unit) :=
  let deleted := (db.rows.filter (fun e => e.id == emp_id)).length
  if deleted == 0 then
    .error (.valueError ("Employee with id " ++ toString emp_id ++ " does not exist"))
  else
    .ok (⟨db.rows.filter (fun e => !(e.id == emp_id)), db.nextId⟩, ())

/-- Method `EmployeesManager.delete_employee`. -/
def delete_employee (db : DB) (emp_id : Int) : ScopeOutcome Unit :=
  session_scope (delete_body emp_id) db

end EmployeesManager

/-- An HTTP-level outcome: a success response with status and body, an
`HTTPException`-style error response with status and detail, or the
`500 Internal Server Error` FastAPI produces from an uncaught exception. -/
inductive HttpResponse (α : Type) where
  | ok (status : Nat) (body : α)
  | error (status : Nat) (detail : String)
  | internalError (e : Err)
deriving DecidableEq, Repr

/-- The status code of a response; an uncaught exception is surfaced as 500. -/
def HttpResponse.status {α : Type} : HttpResponse α → Nat
  | .ok s _ => s
  | .error s _ => s
  | .internalError _ => 500

/-- Pydantic schema `EmployeeCreate`: a body that already parsed as the right
JSON shape; the `ge=0` range constraints are `validate_create`. -/
structure EmployeeCreate where
  name : String
  title : String
  job_history : Option String
  salary : ℚ
  years_of_experience : Int
deriving DecidableEq, Repr

/-- The `Field(..., ge=0)` constraints of `EmployeeCreate`; pydantic rejects
the request with 422 before the handler runs when they fail. -/
def validate_create (p : EmployeeCreate) : Bool :=
  decide (0 ≤ p.salary) && decide (0 ≤ p.years_of_experience)

/-- Pydantic schema `EmployeeUpdate`: every field optional, `None` by default,
so a field that is absent from the JSON body and a field set to `null` are
indistinguishable after parsing. -/
structure EmployeeUpdate where
  name : Option String
  title : Option String
  job_history : Option String
  salary : Option ℚ
  years_of_experience : Option Int
deriving DecidableEq, Repr

/-- The `Field(None, ge=0)` constraints of `EmployeeUpdate`. -/
def validate_update (p : EmployeeUpdate) : Bool :=
  (match p.salary with
   | some q => decide (0 ≤ q)
   | none => true) &&
  (match p.years_of_experience with
   | some n => decide (0 ≤ n)
   | none => true)

/-- Method `EmployeeUpdate.dict_updates`: `model_dump()` in field-declaration order
with the `None`-valued entries dropped. -/
def EmployeeUpdate.dict_updates (p : EmployeeUpdate) : List (String × Value) :=
  (match p.name with
   | some s => [("name", Value.vStr s)]
   | none => []) ++
  (match p.title with
   | some s => [("title", Value.vStr s)]
   | none => []) ++
  (match p.job_history with
   | some s => [("job_history", Value.vStr s)]
   | none => []) ++
  (match p.salary with
   | some q => [("salary", Value.vNum q)]
   | none => []) ++
  (match p.years_of_experience with
   | some n => [("years_of_experience", Value.vInt n)]
   | none => [])

namespace Api

/-- Route `GET /employees` (`list_employees`): query defaults `top=10` (FastAPI
rejects `top ≤ 0` with 422 before the handler), `order_by=["-salary"]`, and an
optional exact-match `title` filter (`if title` is Python truthiness, so an
empty string applies no filter).  The handler catches nothing, so an exception
escaping the manager becomes a 500. -/
def list_employees (db : DB) (top : Option Int) (order_by : Option (List String))
    (title : Option String) : HttpResponse (List Employee) × DB :=
  let t := top.getD 10
  if t ≤ 0 then (.error 422 "Input should be greater than 0", db)
  else
    let filters : List (String × Value) :=
      match title with
      | some s => if s = "" then [] else [("title", Value.vStr s)]
      | none => []
    let out := EmployeesManager.get_top_employees db t (some (order_by.getD ["-salary"])) filters
    match out.result with
    | .ok emps => (.ok 200 emps, out.store)
    | .error e => (.internalError e, out.store)

/-- Route `POST /employees` (`create_employee`): schema validation first (422 before
any storage access), then the manager; 201 with the created entity on
success. -/
def create_employee (db : DB) (payload : EmployeeCreate) :
    HttpResponse Employee × DB :=
  if validate_create payload then
    let out := EmployeesManager.create_employee db payload.name payload.title
      payload.job_history payload.salary payload.years_of_experience
    match out.result with
    | .ok emp => (.ok 201 emp, out.store)
    | .error e => (.internalError e, out.store)
  else (.error 422 "Input should be greater than or equal to 0", db)

/-- Route `PUT /employees/\x7bemp_id\x7d` (`update_employee`): schema validation (422),
then 400 when `dict_updates` is empty, then the manager with `ValueError`
mapped to 404 carrying the exception's message. -/
def update_employee (db : DB) (emp_id : Int) (payload : EmployeeUpdate) :
    HttpResponse Employee × DB :=
  if validate_update payload then
    let updates := payload.dict_updates
    if updates.isEmpty then (.error 400 "No fields provided to update", db)
    else
      let out := EmployeesManager.update_employee db emp_id updates
      match out.result with
      | .ok emp => (.ok 200 emp, out.store)
      | .error (.valueError msg) => (.error 404 msg, out.store)
      | .error e => (.internalError e, out.store)
  else (.error 422 "Input should be greater than or equal to 0", db)

/-- Route `DELETE /employees/\x7bemp_id\x7d` (`delete_employee`): 204 with no body on
success, 404 carrying the message on `ValueError`. -/
def delete_employee (db : DB) (emp_id : Int) : HttpResponse Unit × DB :=
  let out := EmployeesManager.delete_employee db emp_id
  match out.result with
  | .ok _ => (.ok 204 (), out.store)
  | .error (.valueError msg) => (.error 404 msg, out.store)
  | .error e => (.internalError e, out.store)

end Api

/-- First value bound to a key in a Python dict rendered as an association
list (dict keys are unique, so first = only). -/
def lookupKey : List (String × Value) → String → Option Value
  | [], _ => none
  | (k, v) :: rest, key => if k = key then some v else lookupKey rest key

/-- The value a string column takes after an update: the bound string when the
key was supplied with one, the previous value otherwise. -/
def getStrD : Option Value → String → String
  | some (.vStr s), _ => s
  | _, d => d

/-- The value an integer column takes after an update. -/
def getIntD : Option Value → Int → Int
  | some (.vInt n), _ => n
  | _, d => d

/-- The value the decimal `salary` column takes after an update. -/
def getNumD : Option Value → ℚ → ℚ
  | some (.vNum q), _ => q
  | _, d => d

/-- The value the nullable `job_history` column takes after an update. -/
def getJobD : Option Value → Option String → Option String
  | some (.vStr s), _ => some s
  | some .vNull, _ => none
  | _, d => d

/-- Closed-form result of folding `setField` over an updates dict: each column
takes the value bound to its name when one was supplied, and keeps its prior
value otherwise; keys that name no column influence nothing. -/
def applyUpdates (us : List (String × Value)) (e : Employee) : Employee :=
  ⟨getIntD (lookupKey us "id") e.id,
   getStrD (lookupKey us "name") e.name,
   getStrD (lookupKey us "title") e.title,
   getJobD (lookupKey us "job_history") e.job_history,
   getNumD (lookupKey us "salary") e.salary,
   getIntD (lookupKey us "years_of_experience") e.years_of_experience⟩

/-- A dict value has the type the named column holds (any value is fine under
a key that names no column, since such keys change nothing).  The claims only
exercise well-typed updates; a mismatched value would be rejected by the
database driver outside this model. -/
def typeMatches : String → Value → Bool
  | "id", .vInt _ => true
  | "name", .vStr _ => true
  | "title", .vStr _ => true
  | "job_history", .vStr _ => true
  | "job_history", .vNull => true
  | "salary", .vNum _ => true
  | "years_of_experience", .vInt _ => true
  | k, _ => (colOf k).isNone

/-- Every binding of the updates dict is well-typed. -/
def wellTyped (us : List (String × Value)) : Bool :=
  us.all (fun kv => typeMatches kv.1 kv.2)

/-- The spec's fixed 3-row fixture (§8): three employees with distinct ids and
salaries. -/
def dbFix : DB :=
  ⟨[⟨1, "Ana", "Engineer", none, 90000, 5⟩,
    ⟨2, "Bob", "Analyst", some "Intern at X", 120000, 3⟩,
    ⟨3, "Cid", "Engineer", none, 70000, 9⟩], 4⟩

/-! ### Ordering lemmas: the `ORDER BY` comparator is total and transitive -/

theorem ordSwap_eq_lt {o : Ordering} : o.swap = .lt ↔ o = .gt := by
  cases o <;> simp [Ordering.swap]

theorem ordSwap_eq_eq {o : Ordering} : o.swap = .eq ↔ o = .eq := by
  cases o <;> simp [Ordering.swap]

theorem ordSwap_eq_gt {o : Ordering} : o.swap = .gt ↔ o = .lt := by
  cases o <;> simp [Ordering.swap]

theorem keyCmp_swap {κ : Type} [LinearOrder κ] (f : Employee → κ) (a b : Employee) :
    keyCmp f a b = (keyCmp f b a).swap :=
  (cmp_swap _ _).symm

theorem keyCmp_eq_left {κ : Type} [LinearOrder κ] (f : Employee → κ) {a b : Employee}
    (h : keyCmp f a b = .eq) (x : Employee) : keyCmp f a x = keyCmp f b x := by
  unfold keyCmp at h ⊢
  rw [(cmp_eq_eq_iff _ _).mp h]

theorem keyCmp_eq_right {κ : Type} [LinearOrder κ] (f : Employee → κ) {a b : Employee}
    (h : keyCmp f a b = .eq) (x : Employee) : keyCmp f x a = keyCmp f x b := by
  unfold keyCmp at h ⊢
  rw [(cmp_eq_eq_iff _ _).mp h]

theorem keyCmp_lt_trans {κ : Type} [LinearOrder κ] (f : Employee → κ) {a b x : Employee}
    (h1 : keyCmp f a b = .lt) (h2 : keyCmp f b x = .lt) :
    keyCmp f a x = .lt :=
  (cmp_eq_lt_iff _ _).mpr (lt_trans ((cmp_eq_lt_iff _ _).mp h1) ((cmp_eq_lt_iff _ _).mp h2))

theorem colCmp_swap (c : Col) (a b : Employee) : colCmp c a b = (colCmp c b a).swap := by
  cases c <;> simp only [colCmp]
  · exact keyCmp_swap Employee.id a b
  · exact keyCmp_swap Employee.name a b
  · exact keyCmp_swap Employee.title a b
  · exact keyCmp_swap jobKey a b
  · exact keyCmp_swap Employee.salary a b
  · exact keyCmp_swap Employee.years_of_experience a b

theorem colCmp_eq_left {c : Col} {a b : Employee} (h : colCmp c a b = .eq)
    (x : Employee) : colCmp c a x = colCmp c b x := by
  cases c <;> simp only [colCmp] at h ⊢
  · exact keyCmp_eq_left Employee.id h x
  · exact keyCmp_eq_left Employee.name h x
  · exact keyCmp_eq_left Employee.title h x
  · exact keyCmp_eq_left jobKey h x
  · exact keyCmp_eq_left Employee.salary h x
  · exact keyCmp_eq_left Employee.years_of_experience h x

theorem colCmp_eq_right {c : Col} {a b : Employee} (h : colCmp c a b = .eq)
    (x : Employee) : colCmp c x a = colCmp c x b := by
  cases c <;> simp only [colCmp] at h ⊢
  · exact keyCmp_eq_right Employee.id h x
  · exact keyCmp_eq_right Employee.name h x
  · exact keyCmp_eq_right Employee.title h x
  · exact keyCmp_eq_right jobKey h x
  · exact keyCmp_eq_right Employee.salary h x
  · exact keyCmp_eq_right Employee.years_of_experience h x

theorem colCmp_lt_trans {c : Col} {a b x : Employee} (h1 : colCmp c a b = .lt)
    (h2 : colCmp c b x = .lt) : colCmp c a x = .lt := by
  cases c <;> simp only [colCmp] at h1 h2 ⊢
  · exact keyCmp_lt_trans Employee.id h1 h2
  · exact keyCmp_lt_trans Employee.name h1 h2
  · exact keyCmp_lt_trans Employee.title h1 h2
  · exact keyCmp_lt_trans jobKey h1 h2
  · exact keyCmp_lt_trans Employee.salary h1 h2
  · exact keyCmp_lt_trans Employee.years_of_experience h1 h2

theorem clauseCmp_swap (c : Clause) (a b : Employee) :
    clauseCmp c a b = (clauseCmp c b a).swap := by
  rcases c with ⟨col, desc⟩
  cases desc <;> simp only [clauseCmp, Bool.false_eq_true, if_false, if_true]
  · exact colCmp_swap col a b
  · rw [colCmp_swap col a b, Ordering.swap_swap, colCmp_swap col b a]

theorem clauseCmp_eq_left {c : Clause} {a b : Employee} (h : clauseCmp c a b = .eq)
    (x : Employee) : clauseCmp c a x = clauseCmp c b x := by
  rcases c with ⟨col, desc⟩
  cases desc <;> simp only [clauseCmp, Bool.false_eq_true, if_false, if_true] at h ⊢
  · exact colCmp_eq_left h x
  · exact congrArg Ordering.swap (colCmp_eq_left (ordSwap_eq_eq.mp h) x)

theorem clauseCmp_eq_right {c : Clause} {a b : Employee} (h : clauseCmp c a b = .eq)
    (x : Employee) : clauseCmp c x a = clauseCmp c x b := by
  rcases c with ⟨col, desc⟩
  cases desc <;> simp only [clauseCmp, Bool.false_eq_true, if_false, if_true] at h ⊢
  · exact colCmp_eq_right h x
  · exact congrArg Ordering.swap (colCmp_eq_right (ordSwap_eq_eq.mp h) x)

theorem colCmp_gt_iff {c : Col} {a b : Employee} :
    colCmp c a b = .gt ↔ colCmp c b a = .lt := by
  rw [colCmp_swap c a b]
  exact ordSwap_eq_gt

theorem clauseCmp_lt_trans {c : Clause} {a b x : Employee} (h1 : clauseCmp c a b = .lt)
    (h2 : clauseCmp c b x = .lt) : clauseCmp c a x = .lt := by
  rcases c with ⟨col, desc⟩
  cases desc <;> simp only [clauseCmp, Bool.false_eq_true, if_false, if_true] at h1 h2 ⊢
  · exact colCmp_lt_trans h1 h2
  · exact ordSwap_eq_lt.mpr (colCmp_gt_iff.mpr
      (colCmp_lt_trans (colCmp_gt_iff.mp (ordSwap_eq_lt.mp h2))
        (colCmp_gt_iff.mp (ordSwap_eq_lt.mp h1))))

theorem clausesCmp_swap (cs : List Clause) (a b : Employee) :
    clausesCmp cs a b = (clausesCmp cs b a).swap := by
  induction cs with
  | nil => rfl
  | cons c cs ih =>
    simp only [clausesCmp]
    rw [clauseCmp_swap c a b]
    cases h : clauseCmp c b a <;> simp [Ordering.swap, ih]

theorem clausesCmp_trans {cs : List Clause} {a b d : Employee}
    (h1 : clausesCmp cs a b ≠ .gt) (h2 : clausesCmp cs b d ≠ .gt) :
    clausesCmp cs a d ≠ .gt := by
  induction cs with
  | nil => simp [clausesCmp]
  | cons c cs ih =>
    simp only [clausesCmp] at h1 h2 ⊢
    cases hc1 : clauseCmp c a b <;> rw [hc1] at h1 <;>
      cases hc2 : clauseCmp c b d <;> rw [hc2] at h2
    · rw [clauseCmp_lt_trans hc1 hc2]; simp
    · rw [(clauseCmp_eq_right hc2 a).symm.trans hc1]; simp
    · exact absurd rfl h2
    · rw [(clauseCmp_eq_left hc1 d).trans hc2]; simp
    · rw [(clauseCmp_eq_left hc1 d).trans hc2]
      exact ih h1 h2
    · exact absurd rfl h2
    · exact absurd rfl h1
    · exact absurd rfl h1
    · exact absurd rfl h1

theorem clausesLE_iff {cs : List Clause} {a b : Employee} :
    clausesLE cs a b = true ↔ clausesCmp cs a b ≠ .gt := by
  unfold clausesLE
  cases clausesCmp cs a b <;> simp

theorem clausesLE_total (cs : List Clause) (a b : Employee) :
    (clausesLE cs a b || clausesLE cs b a) = true := by
  rcases h : clausesCmp cs a b with _ | _ | _ <;>
    simp only [clausesLE, h, Bool.true_or, Bool.or_true]
  have hb : clausesCmp cs b a = .lt := by
    have := clausesCmp_swap cs a b
    rw [h] at this
    exact ordSwap_eq_gt.mp this.symm
  rw [hb]
  rfl

theorem clausesLE_trans (cs : List Clause) (a b d : Employee)
    (h1 : clausesLE cs a b = true) (h2 : clausesLE cs b d = true) :
    clausesLE cs a d = true :=
  clausesLE_iff.mpr (clausesCmp_trans (clausesLE_iff.mp h1) (clausesLE_iff.mp h2))

/-! ### Update lemmas: folding `setattr` over a dict, field by field -/

theorem lookupKey_eq_none {us : List (String × Value)} {key : String}
    (h : key ∉ us.map Prod.fst) : lookupKey us key = none := by
  induction us with
  | nil => rfl
  | cons kv rest ih =>
    simp only [List.map_cons, List.mem_cons] at h
    push_neg at h
    simp only [lookupKey]
    rw [if_neg (fun he => h.1 he.symm)]
    exact ih h.2

theorem setField_unknown (e : Employee) (k : String) (v : Value) (h : colOf k = none) :
    EmployeesManager.setField e (k, v) = e := by
  unfold EmployeesManager.setField
  split <;> simp_all [colOf]

theorem lookupKey_cons_ne {k key : String} (v : Value) (rest : List (String × Value))
    (h : k ≠ key) : lookupKey ((k, v) :: rest) key = lookupKey rest key := by
  simp [lookupKey, h]

theorem applyUpdates_cons (k : String) (v : Value) (rest : List (String × Value))
    (e : Employee) (hk : k ∉ rest.map Prod.fst) :
    applyUpdates ((k, v) :: rest) e = applyUpdates rest (EmployeesManager.setField e (k, v)) := by
  have hnone := lookupKey_eq_none hk
  by_cases h1 : k = "id"
  · subst h1
    cases v <;> simp_all [applyUpdates, lookupKey, EmployeesManager.setField,
      getIntD, getStrD, getNumD, getJobD]
  by_cases h2 : k = "name"
  · subst h2
    cases v <;> simp_all [applyUpdates, lookupKey, EmployeesManager.setField,
      getIntD, getStrD, getNumD, getJobD]
  by_cases h3 : k = "title"
  · subst h3
    cases v <;> simp_all [applyUpdates, lookupKey, EmployeesManager.setField,
      getIntD, getStrD, getNumD, getJobD]
  by_cases h4 : k = "job_history"
  · subst h4
    cases v <;> simp_all [applyUpdates, lookupKey, EmployeesManager.setField,
      getIntD, getStrD, getNumD, getJobD]
  by_cases h5 : k = "salary"
  · subst h5
    cases v <;> simp_all [applyUpdates, lookupKey, EmployeesManager.setField,
      getIntD, getStrD, getNumD, getJobD]
  by_cases h6 : k = "years_of_experience"
  · subst h6
    cases v <;> simp_all [applyUpdates, lookupKey, EmployeesManager.setField,
      getIntD, getStrD, getNumD, getJobD]
  · have hco : colOf k = none := by
      simp [colOf, h1, h2, h3, h4, h5, h6]
    rw [setField_unknown e k v hco]
    simp only [applyUpdates, lookupKey_cons_ne v rest h1, lookupKey_cons_ne v rest h2,
      lookupKey_cons_ne v rest h3, lookupKey_cons_ne v rest h4,
      lookupKey_cons_ne v rest h5, lookupKey_cons_ne v rest h6]

theorem foldl_setField_eq (us : List (String × Value)) (e : Employee)
    (hnd : (us.map Prod.fst).Nodup) :
    us.foldl EmployeesManager.setField e = applyUpdates us e := by
  induction us generalizing e with
  | nil => rfl
  | cons kv rest ih =>
    rcases kv with ⟨k, v⟩
    simp only [List.map_cons, List.nodup_cons] at hnd
    rw [applyUpdates_cons k v rest e hnd.1, List.foldl_cons]
    exact ih _ hnd.2

/-! ### Row-lookup lemmas: `.one()` on the primary key -/

theorem filter_id_eq_nil {rows : List Employee} {i : Int}
    (h : ∀ e ∈ rows, e.id ≠ i) : rows.filter (fun e => e.id == i) = [] := by
  rw [List.filter_eq_nil_iff]
  intro e he
  simp [h e he]

theorem filter_id_eq_single : ∀ (rows : List Employee) (e : Employee) (i : Int),
    e ∈ rows → e.id = i → (rows.map Employee.id).Nodup →
    rows.filter (fun r => r.id == i) = [e]
  | [], _, _, hmem, _, _ => by cases hmem
  | r :: rs, e, i, hmem, hid, hnd => by
    simp only [List.map_cons, List.nodup_cons] at hnd
    rcases List.mem_cons.mp hmem with he | he
    · subst he
      rw [List.filter_cons, if_pos (by simp [hid]), filter_id_eq_nil]
      intro x hx hxe
      exact hnd.1 (by rw [hid, ← hxe]; exact List.mem_map_of_mem Employee.id hx)
    · have hr : ¬(r.id == i) = true := by
        simp only [beq_iff_eq]
        intro hri
        exact hnd.1 (by rw [← hri] at hid; rw [← hid]; exact List.mem_map_of_mem Employee.id he)
      rw [List.filter_cons, if_neg hr]
      exact filter_id_eq_single rs e i he hid hnd.2

/-! ### Shape lemmas for the list operation -/

theorem get_top_eq_err_filters {db : DB} {n : Int} {order_by : Option (List String)}
    {filters : List (String × Value)} {ex : Err}
    (hpf : parseFilters filters = .error ex) :
    EmployeesManager.get_top_employees db n order_by filters = ⟨db, .error ex, true⟩ := by
  unfold EmployeesManager.get_top_employees EmployeesManager.get_top_body session_scope
  simp only [hpf]
  rfl

theorem get_top_eq_ok {db : DB} {n : Int} {order_by : Option (List String)}
    {filters : List (String × Value)} {fs : List (Col × Value)} {cs : List Clause}
    (hpf : parseFilters filters = .ok fs)
    (hpc : parseClauses (default_order_by order_by) = .ok cs) :
    EmployeesManager.get_top_employees db n order_by filters =
      ⟨db,
       .ok (((db.rows.filter (matchesFilters fs)).mergeSort (clausesLE cs)).take n.toNat),
       true⟩ := by
  unfold EmployeesManager.get_top_employees EmployeesManager.get_top_body session_scope
  simp only [hpf, hpc]
  rfl

theorem get_top_eq_err_clauses {db : DB} {n : Int} {order_by : Option (List String)}
    {filters : List (String × Value)} {fs : List (Col × Value)} {ex : Err}
    (hpf : parseFilters filters = .ok fs)
    (hpc : parseClauses (default_order_by order_by) = .error ex) :
    EmployeesManager.get_top_employees db n order_by filters = ⟨db, .error ex, true⟩ := by
  unfold EmployeesManager.get_top_employees EmployeesManager.get_top_body session_scope
  simp only [hpf, hpc]
  rfl

theorem get_top_mem {db : DB} {n : Int} {order_by : Option (List String)}
    {filters : List (String × Value)} {emps : List Employee}
    (h : (EmployeesManager.get_top_employees db n order_by filters).result = .ok emps) :
    ∀ r ∈ emps, r ∈ db.rows := by
  cases hpf : parseFilters filters with
  | error ex =>
    rw [get_top_eq_err_filters hpf] at h
    simp at h
  | ok fs =>
    cases hpc : parseClauses (default_order_by order_by) with
    | error ex =>
      rw [get_top_eq_err_clauses hpf hpc] at h
      simp at h
    | ok cs =>
      rw [get_top_eq_ok hpf hpc] at h
      simp only [Except.ok.injEq] at h
      subst h
      intro r hr
      have h1 := (List.take_sublist _ _).subset hr
      have h2 := List.mem_mergeSort.mp h1
      exact (List.mem_filter.mp h2).1

/-- An `order_by` list containing a name that is not a column makes
`parseClauses` raise `AttributeError` for some unknown name. -/
theorem parseClauses_err_of_bad_key : ∀ (obs : List String),
    (∃ key ∈ obs, colOf (parseKey key).2 = none) →
    ∃ missing, colOf missing = none ∧ parseClauses obs = .error (.attributeError missing)
  | [], h => absurd h (by simp)
  | key :: rest, h => by
    cases hc : colOf (parseKey key).2 with
    | none => exact ⟨(parseKey key).2, hc, by simp [parseClauses, hc]⟩
    | some c =>
      have hrest : ∃ k ∈ rest, colOf (parseKey k).2 = none := by
        rcases h with ⟨k, hk, hbad⟩
        rcases List.mem_cons.mp hk with rfl | hk
        · exact absurd hbad (by simp [hc])
        · exact ⟨k, hk, hbad⟩
      rcases parseClauses_err_of_bad_key rest hrest with ⟨m, hm, hpc⟩
      exact ⟨m, hm, by simp only [parseClauses, hc, hpc]; rfl⟩

/-- Under the default ordering `["-salary"]` the comparator says exactly
"salary is at least the other row's salary". -/
theorem salary_desc_le {a b : Employee}
    (h : clausesLE [(Col.salary, true)] a b = true) : b.salary ≤ a.salary := by
  by_contra hlt
  push_neg at hlt
  have hk : keyCmp Employee.salary a b = .lt := (cmp_eq_lt_iff _ _).mpr hlt
  have hg : clausesCmp [(Col.salary, true)] a b = .gt := by
    simp [clausesCmp, clauseCmp, colCmp, hk, Ordering.swap]
  simp [clausesLE, hg] at h

/-! ### Shape lemmas for update and delete -/

theorem update_eq_missing {db : DB} {i : Int} {us : List (String × Value)}
    (h : ∀ e ∈ db.rows, e.id ≠ i) :
    EmployeesManager.update_employee db i us =
      ⟨db, .error (.valueError ("Employee with id " ++ toString i ++ " does not exist")),
       true⟩ := by
  unfold EmployeesManager.update_employee EmployeesManager.update_body session_scope
  simp only [filter_id_eq_nil h]

theorem update_eq_found {db : DB} {i : Int} {us : List (String × Value)} {e : Employee}
    (hmem : e ∈ db.rows) (hid : e.id = i) (hnd : (db.rows.map Employee.id).Nodup) :
    EmployeesManager.update_employee db i us =
      ⟨⟨db.rows.map (fun r => if r.id == i then us.foldl EmployeesManager.setField e else r),
        db.nextId⟩,
       .ok (us.foldl EmployeesManager.setField e), true⟩ := by
  unfold EmployeesManager.update_employee EmployeesManager.update_body session_scope
  simp only [filter_id_eq_single db.rows e i hmem hid hnd]

theorem delete_eq_missing {db : DB} {i : Int}
    (h : ∀ e ∈ db.rows, e.id ≠ i) :
    EmployeesManager.delete_employee db i =
      ⟨db, .error (.valueError ("Employee with id " ++ toString i ++ " does not exist")),
       true⟩ := by
  unfold EmployeesManager.delete_employee EmployeesManager.delete_body session_scope
  simp only [filter_id_eq_nil h]
  rfl

theorem delete_eq_found {db : DB} {i : Int} {e : Employee}
    (hmem : e ∈ db.rows) (hid : e.id = i) :
    EmployeesManager.delete_employee db i =
      ⟨⟨db.rows.filter (fun r => !(r.id == i)), db.nextId⟩, .ok (), true⟩ := by
  have hne : db.rows.filter (fun r => r.id == i) ≠ [] :=
    List.ne_nil_of_mem (List.mem_filter.mpr ⟨hmem, by simp [hid]⟩)
  have hlen : ((db.rows.filter (fun r => r.id == i)).length == 0) = false := by
    simp only [beq_eq_false_iff_ne, ne_eq, List.length_eq_zero]
    exact hne
  unfold EmployeesManager.delete_employee EmployeesManager.delete_body session_scope
  simp only [hlen]
  rfl

theorem setField_id_of_ne {e : Employee} {k : String} {v : Value} (h : k ≠ "id") :
    (EmployeesManager.setField e (k, v)).id = e.id := by
  unfold EmployeesManager.setField
  split <;> simp_all

theorem foldl_setField_id : ∀ (us : List (String × Value)) (e : Employee),
    "id" ∉ us.map Prod.fst → (us.foldl EmployeesManager.setField e).id = e.id
  | [], _, _ => rfl
  | (k, v) :: rest, e, h => by
    simp only [List.map_cons, List.mem_cons] at h
    push_neg at h
    rw [List.foldl_cons, foldl_setField_id rest _ h.2,
      setField_id_of_ne (fun he => h.1 he.symm)]

/-! ### Lemmas about `EmployeeUpdate.dict_updates` -/

theorem dict_updates_eq_nil_iff (p : EmployeeUpdate) :
    p.dict_updates = [] ↔ p = ⟨none, none, none, none, none⟩ := by
  rcases p with ⟨n, t, j, s, y⟩
  cases n <;> cases t <;> cases j <;> cases s <;> cases y <;>
    simp [EmployeeUpdate.dict_updates]

theorem dict_updates_keys_nodup (p : EmployeeUpdate) :
    (p.dict_updates.map Prod.fst).Nodup := by
  rcases p with ⟨n, t, j, s, y⟩
  cases n <;> cases t <;> cases j <;> cases s <;> cases y <;>
    simp [EmployeeUpdate.dict_updates]

theorem dict_updates_no_null (p : EmployeeUpdate) :
    ∀ kv ∈ p.dict_updates, kv.2 ≠ Value.vNull := by
  rcases p with ⟨n, t, j, s, y⟩
  cases n <;> cases t <;> cases j <;> cases s <;> cases y <;>
    simp [EmployeeUpdate.dict_updates]

theorem dict_updates_no_id (p : EmployeeUpdate) :
    "id" ∉ p.dict_updates.map Prod.fst := by
  rcases p with ⟨n, t, j, s, y⟩
  cases n <;> cases t <;> cases j <;> cases s <;> cases y <;>
    simp [EmployeeUpdate.dict_updates]

theorem dict_updates_lookup_job (p : EmployeeUpdate) :
    lookupKey p.dict_updates "job_history" =
      (match p.job_history with
       | some s => some (Value.vStr s)
       | none => none) := by
  rcases p with ⟨n, t, j, s, y⟩
  cases n <;> cases t <;> cases j <;> cases s <;> cases y <;>
    simp [EmployeeUpdate.dict_updates, lookupKey]

/-! ### Session-scope helper lemmas -/

theorem session_scope_closed {α : Type} (body : DB → Except Err (DB × α)) (db : DB) :
    (session_scope body db).closed = true := by
  unfold session_scope
  cases h : body db with
  | ok p => rcases p with ⟨db2, a⟩; rfl
  | error ex => rfl

theorem session_scope_commit {α : Type} {body : DB → Except Err (DB × α)} {db db2 : DB}
    {a : α} (h : body db = .ok (db2, a)) : session_scope body db = ⟨db2, .ok a, true⟩ := by
  unfold session_scope
  rw [h]

theorem session_scope_rollback {α : Type} {body : DB → Except Err (DB × α)} {db : DB}
    {ex : Err} (h : body db = .error ex) : session_scope body db = ⟨db, .error ex, true⟩ := by
  unfold session_scope
  rw [h]

theorem scope_error_store {α : Type} {body : DB → Except Err (DB × α)} {db : DB} {ex : Err}
    (h : (session_scope body db).result = .error ex) : (session_scope body db).store = db := by
  unfold session_scope at h ⊢
  cases hb : body db with
  | ok p => rcases p with ⟨db2, a⟩; rw [hb] at h; simp at h
  | error ex2 => rfl

/-! ### Claim theorems -/

/-- C2: for an id absent from storage, `update_employee` fails with the
NotFound-style `ValueError` whose message carries the id, the `PUT` route
surfaces it as a 404 carrying that message, and the stored table is unchanged
on both layers — no partial application. -/
theorem C2_update_missing_not_found (db : DB) (i : Int) (us : List (String × Value))
    (p : EmployeeUpdate) (h : ∀ e ∈ db.rows, e.id ≠ i)
    (hok : validate_update p = true) (hne : p.dict_updates ≠ []) :
    EmployeesManager.update_employee db i us =
      ⟨db, .error (.valueError ("Employee with id " ++ toString i ++ " does not exist")),
       true⟩ ∧
    Api.update_employee db i p =
      (.error 404 ("Employee with id " ++ toString i ++ " does not exist"), db) := by
  refine ⟨update_eq_missing h, ?_⟩
  have hie : p.dict_updates.isEmpty = false := by
    cases hud : p.dict_updates with
    | nil => exact absurd hud hne
    | cons a l => rfl
  unfold Api.update_employee
  simp only [hok, if_true, hie, Bool.false_eq_true, if_false, update_eq_missing h]

/-- Witness for C2 at the spec's example id 99999 on the 3-row fixture. -/
theorem C2_witness :
    EmployeesManager.update_employee dbFix 99999 [("salary", Value.vNum 95000)] =
      ⟨dbFix, .error (.valueError "Employee with id 99999 does not exist"), true⟩ ∧
    Api.update_employee dbFix 99999 ⟨none, none, none, some 95000, none⟩ =
      (.error 404 "Employee with id 99999 does not exist", dbFix) :=
  C2_update_missing_not_found dbFix 99999 [("salary", Value.vNum 95000)]
    ⟨none, none, none, some 95000, none⟩ (by decide) (by decide) (by decide)

/-- C5: every data-access operation is `session_scope` applied to its body;
the scope closes the session on every exit path, commits the body's state on
success, and on an exception leaves the store as before and propagates the
exception — in particular each operation's store is unchanged whenever its
result is an error. -/
theorem C5_scoped_transaction (db : DB) :
    (∀ (α : Type) (body : DB → Except Err (DB × α)),
      (session_scope body db).closed = true) ∧
    (∀ (α : Type) (body : DB → Except Err (DB × α)) (db2 : DB) (a : α),
      body db = .ok (db2, a) → session_scope body db = ⟨db2, .ok a, true⟩) ∧
    (∀ (α : Type) (body : DB → Except Err (DB × α)) (ex : Err),
      body db = .error ex → session_scope body db = ⟨db, .error ex, true⟩) ∧
    (∀ n ob fs, EmployeesManager.get_top_employees db n ob fs =
      session_scope (EmployeesManager.get_top_body n ob fs) db) ∧
    (∀ nm t jh sal yoe, EmployeesManager.create_employee db nm t jh sal yoe =
      session_scope (EmployeesManager.create_body nm t jh sal yoe) db) ∧
    (∀ i us, EmployeesManager.update_employee db i us =
      session_scope (EmployeesManager.update_body i us) db) ∧
    (∀ i, EmployeesManager.delete_employee db i =
      session_scope (EmployeesManager.delete_body i) db) ∧
    (∀ i us ex, (EmployeesManager.update_employee db i us).result = .error ex →
      (EmployeesManager.update_employee db i us).store = db) ∧
    (∀ i ex, (EmployeesManager.delete_employee db i).result = .error ex →
      (EmployeesManager.delete_employee db i).store = db) ∧
    (∀ n ob fs ex, (EmployeesManager.get_top_employees db n ob fs).result = .error ex →
      (EmployeesManager.get_top_employees db n ob fs).store = db) := by
  refine ⟨fun α body => session_scope_closed body db,
    fun α body db2 a h => session_scope_commit h,
    fun α body ex h => session_scope_rollback h,
    fun n ob fs => rfl, fun nm t jh sal yoe => rfl, fun i us => rfl, fun i => rfl,
    fun i us ex h => scope_error_store h,
    fun i ex h => scope_error_store h,
    fun n ob fs ex h => scope_error_store h⟩

/-- Witness for C5: a failing body rolls back and closes on the fixture, and a
failing delete leaves the store untouched. -/
theorem C5_witness :
    (session_scope (fun _ => (.error (.valueError "boom") : Except Err (DB × Unit))) dbFix).closed
      = true ∧
    session_scope (fun _ => (.error (.valueError "boom") : Except Err (DB × Unit))) dbFix =
      ⟨dbFix, .error (.valueError "boom"), true⟩ ∧
    EmployeesManager.delete_employee dbFix 99999 =
      session_scope (EmployeesManager.delete_body 99999) dbFix ∧
    (EmployeesManager.delete_employee dbFix 99999).store = dbFix :=
  ⟨(C5_scoped_transaction dbFix).1 Unit _,
   (C5_scoped_transaction dbFix).2.2.1 Unit _ (.valueError "boom") rfl,
   (C5_scoped_transaction dbFix).2.2.2.2.2.2.1 99999,
   (C5_scoped_transaction dbFix).2.2.2.2.2.2.2.2.1 99999
     (.valueError "Employee with id 99999 does not exist") (by decide)⟩

/-- C6: for a creation payload passing validation (non-empty name and title,
optional job_history, salary ≥ 0, integer years_of_experience ≥ 0), the `POST`
route returns 201 with an entity whose id is the freshly assigned sequence
value — not previously in use — and whose other fields equal the payload
exactly; exactly one row is appended to the table. -/
theorem C6_create_fresh_id_exact_fields (db : DB) (p : EmployeeCreate)
    (hwf : ∀ e ∈ db.rows, e.id < db.nextId)
    (hname : p.name ≠ "") (htitle : p.title ≠ "")
    (hsal : 0 ≤ p.salary) (hyoe : 0 ≤ p.years_of_experience) :
    ∃ emp : Employee,
      Api.create_employee db p = (.ok 201 emp, ⟨db.rows ++ [emp], db.nextId + 1⟩) ∧
      emp.id = db.nextId ∧ (∀ e ∈ db.rows, e.id ≠ emp.id) ∧
      emp.name = p.name ∧ emp.title = p.title ∧ emp.job_history = p.job_history ∧
      emp.salary = p.salary ∧ emp.years_of_experience = p.years_of_experience := by
  have hv : validate_create p = true := by
    simp [validate_create, hsal, hyoe]
  refine ⟨⟨db.nextId, p.name, p.title, p.job_history, p.salary, p.years_of_experience⟩,
    ?_, rfl, ?_, rfl, rfl, rfl, rfl, rfl⟩
  · unfold Api.create_employee
    simp only [hv, if_true]
    rfl
  · exact fun e he => ne_of_lt (hwf e he)

/-- Witness for C6: the spec's scenario payload on an empty table gets id 1. -/
theorem C6_witness :
    ∃ emp : Employee,
      Api.create_employee ⟨[], 1⟩ ⟨"Ana", "Engineer", none, 90000, 5⟩ =
        (.ok 201 emp, ⟨[] ++ [emp], 1 + 1⟩) ∧
      emp.id = 1 ∧ (∀ e ∈ ([] : List Employee), e.id ≠ emp.id) ∧
      emp.name = "Ana" ∧ emp.title = "Engineer" ∧ emp.job_history = none ∧
      emp.salary = 90000 ∧ emp.years_of_experience = 5 :=
  C6_create_fresh_id_exact_fields ⟨[], 1⟩ ⟨"Ana", "Engineer", none, 90000, 5⟩
    (by decide) (by decide) (by decide) (by decide) (by decide)

/-- C8: a `POST` whose salary or years_of_experience is negative is rejected
by schema validation with 422 and the store is untouched, and a `PUT`
supplying zero fields is rejected with 400 with the store untouched — in both
cases before any data-access call. -/
theorem C8_malformed_rejected_before_storage (db : DB) (p : EmployeeCreate) (i : Int)
    (pu : EmployeeUpdate)
    (hbad : p.salary < 0 ∨ p.years_of_experience < 0)
    (hempty : pu.dict_updates = []) :
    Api.create_employee db p =
      (.error 422 "Input should be greater than or equal to 0", db) ∧
    Api.update_employee db i pu = (.error 400 "No fields provided to update", db) := by
  constructor
  · have hv : validate_create p = false := by
      rcases hbad with hb | hb
      · simp [validate_create, decide_eq_false (not_le.mpr hb)]
      · simp [validate_create, decide_eq_false (not_le.mpr hb)]
    unfold Api.create_employee
    simp only [hv, Bool.false_eq_true, if_false]
  · have h0 : pu = ⟨none, none, none, none, none⟩ := (dict_updates_eq_nil_iff pu).mp hempty
    subst h0
    rfl

/-- Witness for C8: the spec's `salary = -1` payload and the empty update. -/
theorem C8_witness :
    Api.create_employee dbFix ⟨"Ana", "Engineer", none, -1, 5⟩ =
      (.error 422 "Input should be greater than or equal to 0", dbFix) ∧
    Api.update_employee dbFix 1 ⟨none, none, none, none, none⟩ =
      (.error 400 "No fields provided to update", dbFix) :=
  C8_malformed_rejected_before_storage dbFix ⟨"Ana", "Engineer", none, -1, 5⟩ 1
    ⟨none, none, none, none, none⟩ (by decide) (by decide)

/-- C9: deleting a stored id removes exactly the matching row and the `DELETE`
route returns 204 with no body; every other row survives; any later list
result contains no employee with the deleted id; deleting the same id again
fails with NotFound, surfaced as 404 carrying the id, with storage
unchanged. -/
theorem C9_delete_removes_then_not_found (db : DB) (e : Employee) (i : Int)
    (hnd : (db.rows.map Employee.id).Nodup) (hmem : e ∈ db.rows) (hid : e.id = i) :
    Api.delete_employee db i =
      (.ok 204 (), ⟨db.rows.filter (fun r => !(r.id == i)), db.nextId⟩) ∧
    e ∉ db.rows.filter (fun r => !(r.id == i)) ∧
    (∀ r ∈ db.rows, r ≠ e → r ∈ db.rows.filter (fun r => !(r.id == i))) ∧
    (∀ n ob fs emps,
      (EmployeesManager.get_top_employees ⟨db.rows.filter (fun r => !(r.id == i)), db.nextId⟩
          n ob fs).result = .ok emps →
        ∀ r ∈ emps, r.id ≠ i) ∧
    Api.delete_employee ⟨db.rows.filter (fun r => !(r.id == i)), db.nextId⟩ i =
      (.error 404 ("Employee with id " ++ toString i ++ " does not exist"),
       ⟨db.rows.filter (fun r => !(r.id == i)), db.nextId⟩) := by
  have hgone : ∀ r ∈ db.rows.filter (fun r => !(r.id == i)), r.id ≠ i := by
    intro r hr
    have := (List.mem_filter.mp hr).2
    simpa using this
  refine ⟨?_, ?_, ?_, ?_, ?_⟩
  · unfold Api.delete_employee
    simp only [delete_eq_found hmem hid]
  · intro hin
    exact hgone e hin hid
  · intro r hr hne
    refine List.mem_filter.mpr ⟨hr, ?_⟩
    have hri : r.id ≠ i := fun hri =>
      hne (List.inj_on_of_nodup_map hnd hr hmem (by rw [hri, hid]))
    simp [hri]
  · intro n ob fs emps hok r hrm
    exact hgone r (get_top_mem hok r hrm)
  · unfold Api.delete_employee
    simp only [@delete_eq_missing ⟨db.rows.filter (fun r => !(r.id == i)), db.nextId⟩ i hgone]

/-- Witness for C9: delete id 3 from the fixture, then delete it again. -/
theorem C9_witness :
    Api.delete_employee dbFix 3 =
      (.ok 204 (), ⟨dbFix.rows.filter (fun r => !(r.id == 3)), dbFix.nextId⟩) ∧
    Api.delete_employee ⟨dbFix.rows.filter (fun r => !(r.id == 3)), dbFix.nextId⟩ 3 =
      (.error 404 "Employee with id 3 does not exist",
       ⟨dbFix.rows.filter (fun r => !(r.id == 3)), dbFix.nextId⟩) :=
  ⟨(C9_delete_removes_then_not_found dbFix ⟨3, "Cid", "Engineer", none, 70000, 9⟩ 3
      (by decide) (by decide) (by decide)).1,
   (C9_delete_removes_then_not_found dbFix ⟨3, "Cid", "Engineer", none, 70000, 9⟩ 3
      (by decide) (by decide) (by decide)).2.2.2.2⟩

/-- Counterexample to C1 as stated: on the fixture, the data-access call
`update_employee(1, id=42)` succeeds and rewrites the stored employee's id
from its creation value 1 to 42, because `hasattr(emp, "id")` is true and the
update loop `setattr`s it like any other column. -/
theorem C1_counterexample :
    EmployeesManager.update_employee dbFix 1 [("id", Value.vInt 42)] =
      ⟨⟨[⟨42, "Ana", "Engineer", none, 90000, 5⟩,
         ⟨2, "Bob", "Analyst", some "Intern at X", 120000, 3⟩,
         ⟨3, "Cid", "Engineer", none, 70000, 9⟩], 4⟩,
       .ok ⟨42, "Ana", "Engineer", none, 90000, 5⟩, true⟩ ∧
    (EmployeesManager.update_employee dbFix 1 [("id", Value.vInt 42)]).store.rows.map
        Employee.id = [42, 2, 3] := by
  constructor <;> decide

/-- C1 as amended: `update_employee` leaves every stored id unchanged for
every `partial_fields` that does not bind the key `"id"`; and the HTTP update
schema can never supply that key, so at the API surface the id is immutable
and assigned only at creation. -/
theorem C1_amended_id_immutable (db : DB) (i : Int) (us : List (String × Value))
    (e : Employee) (hmem : e ∈ db.rows) (hid : e.id = i)
    (hnd : (db.rows.map Employee.id).Nodup) (hk : "id" ∉ us.map Prod.fst) :
    ∃ e2 : Employee,
      EmployeesManager.update_employee db i us =
        ⟨⟨db.rows.map (fun r => if r.id == i then e2 else r), db.nextId⟩, .ok e2, true⟩ ∧
      e2.id = e.id ∧
      (EmployeesManager.update_employee db i us).store.rows.map Employee.id =
        db.rows.map Employee.id ∧
      (∀ p : EmployeeUpdate, "id" ∉ p.dict_updates.map Prod.fst) := by
  refine ⟨us.foldl EmployeesManager.setField e, update_eq_found hmem hid hnd,
    foldl_setField_id us e hk, ?_, fun p => dict_updates_no_id p⟩
  rw [update_eq_found hmem hid hnd]
  rw [List.map_map]
  apply List.map_congr_left
  intro r hr
  by_cases hcase : r.id = i
  · simp only [Function.comp, hcase, beq_self_eq_true, if_true]
    rw [foldl_setField_id us e hk, hid]
  · simp [Function.comp, hcase]

/-- Witness for C1's amended statement: a salary-only update on the fixture
keeps every id. -/
theorem C1_witness :
    ∃ e2 : Employee,
      EmployeesManager.update_employee dbFix 1 [("salary", Value.vNum 95000)] =
        ⟨⟨dbFix.rows.map (fun r => if r.id == 1 then e2 else r), dbFix.nextId⟩, .ok e2, true⟩ ∧
      e2.id = 1 ∧
      (EmployeesManager.update_employee dbFix 1 [("salary", Value.vNum 95000)]).store.rows.map
          Employee.id = dbFix.rows.map Employee.id ∧
      (∀ p : EmployeeUpdate, "id" ∉ p.dict_updates.map Prod.fst) :=
  C1_amended_id_immutable dbFix 1 [("salary", Value.vNum 95000)]
    ⟨1, "Ana", "Engineer", none, 90000, 5⟩ (by decide) (by decide) (by decide) (by decide)

/-- C4: for a stored employee, `update_employee` succeeds and changes exactly
the fields bound in `partial_fields`: each column named in the dict takes its
supplied value, each column not named keeps its prior value, and keys that
name no `Employee` field are silently ignored (a dict of only unknown keys
still succeeds and changes nothing). -/
theorem C4_update_applies_exactly_supplied_fields (db : DB) (i : Int)
    (us : List (String × Value)) (e : Employee)
    (hmem : e ∈ db.rows) (hid : e.id = i) (hnd : (db.rows.map Employee.id).Nodup)
    (hkeys : (us.map Prod.fst).Nodup) (hwt : wellTyped us = true) :
    ∃ e2 : Employee,
      EmployeesManager.update_employee db i us =
        ⟨⟨db.rows.map (fun r => if r.id == i then e2 else r), db.nextId⟩, .ok e2, true⟩ ∧
      (∀ s, lookupKey us "name" = some (.vStr s) → e2.name = s) ∧
      (∀ s, lookupKey us "title" = some (.vStr s) → e2.title = s) ∧
      (∀ s, lookupKey us "job_history" = some (.vStr s) → e2.job_history = some s) ∧
      (∀ q, lookupKey us "salary" = some (.vNum q) → e2.salary = q) ∧
      (∀ m, lookupKey us "years_of_experience" = some (.vInt m) →
        e2.years_of_experience = m) ∧
      (∀ m, lookupKey us "id" = some (.vInt m) → e2.id = m) ∧
      (lookupKey us "name" = none → e2.name = e.name) ∧
      (lookupKey us "title" = none → e2.title = e.title) ∧
      (lookupKey us "job_history" = none → e2.job_history = e.job_history) ∧
      (lookupKey us "salary" = none → e2.salary = e.salary) ∧
      (lookupKey us "years_of_experience" = none →
        e2.years_of_experience = e.years_of_experience) ∧
      (lookupKey us "id" = none → e2.id = e.id) ∧
      ((∀ kv ∈ us, colOf kv.1 = none) → e2 = e) := by
  have hfold := foldl_setField_eq us e hkeys
  refine ⟨applyUpdates us e, by rw [← hfold]; exact update_eq_found hmem hid hnd,
    ?_, ?_, ?_, ?_, ?_, ?_, ?_, ?_, ?_, ?_, ?_, ?_, ?_⟩
  · intro s hs
    simp [applyUpdates, hs, getStrD]
  · intro s hs
    simp [applyUpdates, hs, getStrD]
  · intro s hs
    simp [applyUpdates, hs, getJobD]
  · intro q hq
    simp [applyUpdates, hq, getNumD]
  · intro m hm
    simp [applyUpdates, hm, getIntD]
  · intro m hm
    simp [applyUpdates, hm, getIntD]
  · intro hnone
    simp [applyUpdates, hnone, getStrD]
  · intro hnone
    simp [applyUpdates, hnone, getStrD]
  · intro hnone
    simp [applyUpdates, hnone, getJobD]
  · intro hnone
    simp [applyUpdates, hnone, getNumD]
  · intro hnone
    simp [applyUpdates, hnone, getIntD]
  · intro hnone
    simp [applyUpdates, hnone, getIntD]
  · intro hall
    have lk : ∀ key : String, colOf key ≠ none → lookupKey us key = none := by
      intro key hc
      refine lookupKey_eq_none ?_
      intro hmem2
      rcases List.mem_map.mp hmem2 with ⟨kv, hkv, rfl⟩
      exact hc (hall kv hkv)
    simp only [applyUpdates, lk "id" (by decide), lk "name" (by decide),
      lk "title" (by decide), lk "job_history" (by decide), lk "salary" (by decide),
      lk "years_of_experience" (by decide), getIntD, getStrD, getNumD, getJobD]

/-- Witness for C4: the spec's salary-only update with an extra unknown key on
the fixture. -/
theorem C4_witness :
    ∃ e2 : Employee,
      EmployeesManager.update_employee dbFix 1
          [("salary", Value.vNum 95000), ("seniority", Value.vStr "high")] =
        ⟨⟨dbFix.rows.map (fun r => if r.id == 1 then e2 else r), dbFix.nextId⟩,
         .ok e2, true⟩ ∧
      (∀ s, lookupKey [("salary", Value.vNum 95000), ("seniority", Value.vStr "high")]
          "name" = some (.vStr s) → e2.name = s) ∧
      (∀ s, lookupKey [("salary", Value.vNum 95000), ("seniority", Value.vStr "high")]
          "title" = some (.vStr s) → e2.title = s) ∧
      (∀ s, lookupKey [("salary", Value.vNum 95000), ("seniority", Value.vStr "high")]
          "job_history" = some (.vStr s) → e2.job_history = some s) ∧
      (∀ q, lookupKey [("salary", Value.vNum 95000), ("seniority", Value.vStr "high")]
          "salary" = some (.vNum q) → e2.salary = q) ∧
      (∀ m, lookupKey [("salary", Value.vNum 95000), ("seniority", Value.vStr "high")]
          "years_of_experience" = some (.vInt m) → e2.years_of_experience = m) ∧
      (∀ m, lookupKey [("salary", Value.vNum 95000), ("seniority", Value.vStr "high")]
          "id" = some (.vInt m) → e2.id = m) ∧
      (lookupKey [("salary", Value.vNum 95000), ("seniority", Value.vStr "high")]
          "name" = none → e2.name = "Ana") ∧
      (lookupKey [("salary", Value.vNum 95000), ("seniority", Value.vStr "high")]
          "title" = none → e2.title = "Engineer") ∧
      (lookupKey [("salary", Value.vNum 95000), ("seniority", Value.vStr "high")]
          "job_history" = none → e2.job_history = none) ∧
      (lookupKey [("salary", Value.vNum 95000), ("seniority", Value.vStr "high")]
          "salary" = none → e2.salary = 90000) ∧
      (lookupKey [("salary", Value.vNum 95000), ("seniority", Value.vStr "high")]
          "years_of_experience" = none → e2.years_of_experience = 5) ∧
      (lookupKey [("salary", Value.vNum 95000), ("seniority", Value.vStr "high")]
          "id" = none → e2.id = 1) ∧
      ((∀ kv ∈ [("salary", Value.vNum 95000), ("seniority", Value.vStr "high")],
          colOf kv.1 = none) → e2 = ⟨1, "Ana", "Engineer", none, 90000, 5⟩) :=
  C4_update_applies_exactly_supplied_fields dbFix 1
    [("salary", Value.vNum 95000), ("seniority", Value.vStr "high")]
    ⟨1, "Ana", "Engineer", none, 90000, 5⟩
    (by decide) (by decide) (by decide) (by decide) (by decide)

/-- C10: `dict_updates` drops every `None`-valued field, so a JSON `null` in
the PUT body is treated exactly like an absent field: no `vNull` ever reaches
the data layer, a body of only nulls parses to the all-`None` payload and is
rejected with 400 as an empty update, and on a successful PUT `job_history`
is either the supplied string or the prior value — never forced to null. -/
theorem C10_put_null_treated_as_absent (db : DB) (i : Int) (p : EmployeeUpdate)
    (e : Employee) (hmem : e ∈ db.rows) (hid : e.id = i)
    (hnd : (db.rows.map Employee.id).Nodup) :
    (∀ kv ∈ p.dict_updates, kv.2 ≠ Value.vNull) ∧
    (p = ⟨none, none, none, none, none⟩ →
      Api.update_employee db i p = (.error 400 "No fields provided to update", db)) ∧
    (validate_update p = true → p.dict_updates ≠ [] →
      ∃ e2 db2, Api.update_employee db i p = (.ok 200 e2, db2) ∧
        e2.job_history = (match p.job_history with
          | some s => some s
          | none => e.job_history)) := by
  refine ⟨dict_updates_no_null p, ?_, ?_⟩
  · intro h0
    subst h0
    rfl
  · intro hv hne
    have hie : p.dict_updates.isEmpty = false := by
      cases hud : p.dict_updates with
      | nil => exact absurd hud hne
      | cons kv rest => rfl
    refine ⟨applyUpdates p.dict_updates e,
      ⟨db.rows.map (fun r => if r.id == i then applyUpdates p.dict_updates e else r),
        db.nextId⟩, ?_, ?_⟩
    · unfold Api.update_employee
      simp only [hv, if_true, hie, Bool.false_eq_true, if_false,
        update_eq_found hmem hid hnd,
        foldl_setField_eq p.dict_updates e (dict_updates_keys_nodup p)]
    · simp only [applyUpdates]
      rw [dict_updates_lookup_job p]
      cases p.job_history <;> rfl

/-- Witness for C10: a salary-only PUT payload on the fixture leaves
`job_history` at its prior value. -/
theorem C10_witness :
    (∀ kv ∈ (⟨none, none, none, some 95000, none⟩ : EmployeeUpdate).dict_updates,
      kv.2 ≠ Value.vNull) ∧
    ((⟨none, none, none, some 95000, none⟩ : EmployeeUpdate) =
        ⟨none, none, none, none, none⟩ →
      Api.update_employee dbFix 1 ⟨none, none, none, some 95000, none⟩ =
        (.error 400 "No fields provided to update", dbFix)) ∧
    (validate_update ⟨none, none, none, some 95000, none⟩ = true →
      (⟨none, none, none, some 95000, none⟩ : EmployeeUpdate).dict_updates ≠ [] →
      ∃ e2 db2, Api.update_employee dbFix 1 ⟨none, none, none, some 95000, none⟩ =
          (.ok 200 e2, db2) ∧
        e2.job_history = (match (none : Option String) with
          | some s => some s
          | none => (none : Option String))) :=
  C10_put_null_treated_as_absent dbFix 1 ⟨none, none, none, some 95000, none⟩
    ⟨1, "Ana", "Engineer", none, 90000, 5⟩ (by decide) (by decide) (by decide)

/-- C3: with a valid `order_by` (every resolved name a column) and limit
`k > 0`, the list operation succeeds, returns at most `k` employees sorted
according to the requested clauses, leaves the store untouched and the
session closed; when `order_by` is omitted (or exactly the route default
`["-salary"]`), the result is sorted by descending salary. -/
theorem C3_list_limit_sorted_default_desc_salary (db : DB) (n : Int)
    (order_by : Option (List String)) (filters : List (String × Value))
    (fs : List (Col × Value)) (cs : List Clause)
    (hn : 0 < n)
    (hpf : parseFilters filters = .ok fs)
    (hpc : parseClauses (default_order_by order_by) = .ok cs) :
    ∃ emps : List Employee,
      EmployeesManager.get_top_employees db n order_by filters = ⟨db, .ok emps, true⟩ ∧
      (emps.length : Int) ≤ n ∧
      emps.Pairwise (fun a b => clausesLE cs a b = true) ∧
      ((order_by = none ∨ order_by = some ["-salary"]) →
        emps.Pairwise (fun a b => b.salary ≤ a.salary)) := by
  have hsorted : (((db.rows.filter (matchesFilters fs)).mergeSort
      (clausesLE cs)).take n.toNat).Pairwise (fun a b => clausesLE cs a b = true) :=
    List.Pairwise.sublist (List.take_sublist _ _)
      (List.sorted_mergeSort (clausesLE_trans cs) (clausesLE_total cs) _)
  refine ⟨_, get_top_eq_ok hpf hpc, ?_, hsorted, ?_⟩
  · have h1 := List.length_take_le n.toNat
      ((db.rows.filter (matchesFilters fs)).mergeSort (clausesLE cs))
    omega
  · intro hdef
    have hcs : cs = [(Col.salary, true)] := by
      have hd : parseClauses (default_order_by order_by) = .ok [(Col.salary, true)] := by
        rcases hdef with rfl | rfl <;> decide
      rw [hd] at hpc
      exact (Except.ok.inj hpc).symm
    subst hcs
    exact hsorted.imp salary_desc_le

/-- Witness for C3: the default listing of the fixture with limit 2. -/
theorem C3_witness :
    ∃ emps : List Employee,
      EmployeesManager.get_top_employees dbFix 2 none [] = ⟨dbFix, .ok emps, true⟩ ∧
      (emps.length : Int) ≤ 2 ∧
      emps.Pairwise (fun a b => clausesLE [(Col.salary, true)] a b = true) ∧
      (((none : Option (List String)) = none ∨
          (none : Option (List String)) = some ["-salary"]) →
        emps.Pairwise (fun a b => b.salary ≤ a.salary)) :=
  C3_list_limit_sorted_default_desc_salary dbFix 2 none [] [] [(Col.salary, true)]
    (by decide) (by decide) (by decide)

/-- Counterexample to C7 as stated: on the fixture, listing with
`order_by=["seniority"]` does not produce a client error; the unchecked
`AttributeError` escapes the handler and FastAPI surfaces it as a
500 Internal Server Error. -/
theorem C7_counterexample :
    Api.list_employees dbFix (some 10) (some ["seniority"]) none =
      (.internalError (.attributeError "seniority"), dbFix) ∧
    (Api.list_employees dbFix (some 10) (some ["seniority"]) none).1.status = 500 := by
  constructor <;> decide

/-- C7 as amended: a list call whose `order_by` contains a name that resolves
to no `Employee` column is not silently accepted — it fails with
`AttributeError` naming an unknown attribute — but the request layer catches
nothing, so the failure surfaces as a 500 internal server error rather than a
client error; the store is untouched. -/
theorem C7_amended_unknown_order_key_is_500 (db : DB) (top : Int) (ob : List String)
    (title : Option String) (htop : 0 < top)
    (hbad : ∃ key ∈ ob, colOf (parseKey key).2 = none) :
    ∃ missing, colOf missing = none ∧
      Api.list_employees db (some top) (some ob) title =
        (.internalError (.attributeError missing), db) ∧
      (Api.list_employees db (some top) (some ob) title).1.status = 500 := by
  obtain ⟨missing, hcol, hpc⟩ := parseClauses_err_of_bad_key ob hbad
  have hobne : ob ≠ [] := by
    rintro rfl
    rcases hbad with ⟨k, hk, _⟩
    cases hk
  have hdefault : default_order_by (some ob) = ob := by
    cases ob with
    | nil => exact absurd rfl hobne
    | cons x xs => rfl
  have hfilters : ∃ fls, (match title with
      | some s => if s = "" then [] else [("title", Value.vStr s)]
      | none => ([] : List (String × Value))) = fls ∧
      ∃ rs, parseFilters fls = .ok rs := by
    cases title with
    | none => exact ⟨[], rfl, [], rfl⟩
    | some s =>
      by_cases hs : s = ""
      · exact ⟨[], by simp [hs], [], rfl⟩
      · exact ⟨[("title", Value.vStr s)], by simp [hs], [(Col.title, Value.vStr s)], rfl⟩
  obtain ⟨fls, hfls, rs, hrs⟩ := hfilters
  have hg : EmployeesManager.get_top_employees db top (some ob) fls =
      ⟨db, .error (.attributeError missing), true⟩ := by
    refine get_top_eq_err_clauses hrs ?_
    rw [hdefault]
    exact hpc
  have hmain : Api.list_employees db (some top) (some ob) title =
      (.internalError (.attributeError missing), db) := by
    unfold Api.list_employees
    rw [if_neg (by simp [Option.getD]; omega)]
    simp only [Option.getD, hfls, hg]
  exact ⟨missing, hcol, hmain, by rw [hmain]; rfl⟩

/-- Witness for C7's amended statement at the concrete unknown key. -/
theorem C7_witness :
    ∃ missing, colOf missing = none ∧
      Api.list_employees dbFix (some 10) (some ["experience"]) none =
        (.internalError (.attributeError missing), dbFix) ∧
      (Api.list_employees dbFix (some 10) (some ["experience"]) none).1.status = 500 :=
  C7_amended_unknown_order_key_is_500 dbFix 10 ["experience"] none (by decide)
    ⟨"experience", by decide, by decide⟩
